import Mathlib

/-!
Verification of the Plugin Resolution & Safe-Loading Engine of `cc-plugin-mcp`
(`src/cc_plugin_mcp/services/plugin_service.py` and `src/cc_plugin_mcp/models.py`).

Paths are modelled as lists of components of an absolute POSIX path, and the
filesystem as explicit lists of directories and files (symlink-free), so that
`Path.resolve()` is the purely lexical normalization of `.` and `..`.
-/

namespace CcPluginMcp

/-! ## Path model (pathlib semantics, symlink-free) -/

/-- Split a character list on `'/'`, producing the raw chunks (including empty
ones, which the caller filters). Mirrors how `pathlib` tokenizes a path string. -/
def splitSlash : List Char → List Char → List String
  | [], acc => [String.mk acc.reverse]
  | c :: cs, acc =>
    if c = '/' then String.mk acc.reverse :: splitSlash cs [] else splitSlash cs (c :: acc)

/-- The components of a path string, dropping empty chunks and `"."`, as
`PurePosixPath._parts` does (keeping `".."`). -/
def pathParts (s : String) : List String :=
  (splitSlash s.data []).filter (fun c => !(c == "") && !(c == "."))

/-- Whether the path string is absolute (starts with `'/'`). -/
def isAbsStr (s : String) : Bool :=
  match s.data with
  | [] => false
  | c :: _ => c = '/'

/-- One step of lexical canonicalization: `".."` pops the last accumulated
component (a no-op at the root), any other component is pushed. The accumulator
holds the result reversed. -/
def normStep (acc : List String) (c : String) : List String :=
  if c = ".." then acc.drop 1 else c :: acc

/-- Canonicalize the components of an absolute path: the symlink-free meaning of
`Path.resolve()` applied to `/` + components. -/
def resolveParts (ps : List String) : List String :=
  (ps.foldl normStep []).reverse

/-- `Path(s).resolve()` for an absolute path string `s`, symlink-free. -/
def resolvePath (s : String) : List String := resolveParts (pathParts s)

/-- `Path` division `base / rel`: an absolute `rel` replaces `base`. -/
def joinPathParts (baseParts : List String) (rel : String) : List String :=
  if isAbsStr rel then pathParts rel else baseParts ++ pathParts rel

/-- Boolean test that `a` is an initial segment of `b`; this is how
`full_path.relative_to(base)` succeeds or raises. -/
def startsWithParts : List String → List String → Bool
  | [], _ => true
  | _ :: _, [] => false
  | x :: xs, y :: ys => if x = y then startsWithParts xs ys else false

/-- The error raised by the path guard (`ValueError` for a traversal escape). -/
inductive PathError where
  | pathEscape
deriving DecidableEq

/-- `PluginService._validate_safe_path`: resolve the base, resolve the joined
path, and fail unless the latter stays under the former. -/
def _validate_safe_path (baseParts : List String) (relativePath : String) :
    Except PathError (List String) :=
  let baseResolved := resolveParts baseParts
  let fullPath := resolveParts (joinPathParts baseParts relativePath)
  if startsWithParts baseResolved fullPath then Except.ok fullPath
  else Except.error PathError.pathEscape

theorem startsWithParts_iff : ∀ (a b : List String), startsWithParts a b = true ↔ a <+: b
  | [], b => by
    simp only [startsWithParts, true_iff]
    exact ⟨b, rfl⟩
  | x :: xs, [] => by
    simp only [startsWithParts]
    constructor
    · intro h
      exact absurd h (by simp)
    · rintro ⟨t, ht⟩
      simp at ht
  | x :: xs, y :: ys => by
    simp only [startsWithParts, List.cons_prefix_cons]
    by_cases h : x = y
    · simp [h, startsWithParts_iff xs ys]
    · simp [h]

instance {ε α : Type} [DecidableEq ε] [DecidableEq α] : DecidableEq (Except ε α) := fun a b =>
  match a, b with
  | Except.error x, Except.error y =>
    if h : x = y then Decidable.isTrue (by rw [h])
    else Decidable.isFalse (fun hh => h (Except.error.inj hh))
  | Except.ok x, Except.ok y =>
    if h : x = y then Decidable.isTrue (by rw [h])
    else Decidable.isFalse (fun hh => h (Except.ok.inj hh))
  | Except.error _, Except.ok _ => Decidable.isFalse (fun hh => Except.noConfusion hh)
  | Except.ok _, Except.error _ => Decidable.isFalse (fun hh => Except.noConfusion hh)

theorem foldl_traversal_parts (L : List String) :
    List.foldl normStep L ["..", "..", "..", "etc", "passwd"] =
      "passwd" :: "etc" :: L.drop 3 := by
  simp [List.foldl, normStep, List.drop_drop]

theorem traversal_parts_eq :
    pathParts "../../../etc/passwd" = ["..", "..", "..", "etc", "passwd"] := by decide

theorem traversal_not_abs : isAbsStr "../../../etc/passwd" = false := by decide

/-- Claim C1 (amended): the Path Guard either fails with `PathEscape` or returns
the canonicalized join of root and relative, and any returned path is the
canonicalized root itself or a descendant of it; it rejects
`"../../../etc/passwd"` against every root of canonical depth at least 3
(the traversal can re-enter shallow roots such as `/etc`, see the
counterexample), and it accepts any relative path whose canonical form remains
a descendant of the root, existence on disk playing no role. -/
theorem path_guard_spec (root rel : String) :
    (_validate_safe_path (pathParts root) rel = Except.error PathError.pathEscape ∨
      ∃ p, _validate_safe_path (pathParts root) rel = Except.ok p ∧
        p = resolveParts (joinPathParts (pathParts root) rel) ∧ resolvePath root <+: p) ∧
    (3 ≤ (resolvePath root).length →
      _validate_safe_path (pathParts root) "../../../etc/passwd" =
        Except.error PathError.pathEscape) ∧
    (resolvePath root <+: resolveParts (joinPathParts (pathParts root) rel) →
      _validate_safe_path (pathParts root) rel =
        Except.ok (resolveParts (joinPathParts (pathParts root) rel))) := by
  refine ⟨?_, ?_, ?_⟩
  · unfold _validate_safe_path
    by_cases hsw : startsWithParts (resolveParts (pathParts root))
        (resolveParts (joinPathParts (pathParts root) rel)) = true
    · right
      refine ⟨resolveParts (joinPathParts (pathParts root) rel), ?_, rfl, ?_⟩
      · simp [hsw]
      · exact (startsWithParts_iff _ _).mp hsw
    · left
      simp [hsw]
  · intro h3
    have hjoin : joinPathParts (pathParts root) "../../../etc/passwd" =
        pathParts root ++ ["..", "..", "..", "etc", "passwd"] := by
      unfold joinPathParts
      rw [traversal_not_abs, traversal_parts_eq]
      simp
    unfold _validate_safe_path
    rw [hjoin]
    have hfull : resolveParts (pathParts root ++ ["..", "..", "..", "etc", "passwd"]) =
        (((pathParts root).foldl normStep []).drop 3).reverse ++ ["etc", "passwd"] := by
      unfold resolveParts
      rw [List.foldl_append, foldl_traversal_parts]
      simp
    rw [hfull]
    by_cases hsw : startsWithParts (resolveParts (pathParts root))
        ((((pathParts root).foldl normStep []).drop 3).reverse ++ ["etc", "passwd"]) = true
    · exfalso
      have hp := (startsWithParts_iff _ _).mp hsw
      have hlen := hp.length_le
      have hroot : (resolvePath root).length = ((pathParts root).foldl normStep []).length := by
        unfold resolvePath resolveParts
        simp
      simp only [List.length_append, List.length_reverse, List.length_drop] at hlen
      rw [hroot] at h3
      unfold resolveParts at hlen
      simp at hlen
      omega
    · simp [hsw]
  · intro hp
    unfold _validate_safe_path
    have hsw : startsWithParts (resolveParts (pathParts root))
        (resolveParts (joinPathParts (pathParts root) rel)) = true :=
      (startsWithParts_iff _ _).mpr hp
    simp [hsw]

/-- Claim C1 counterexample: against root `/etc`, the guard accepts
`"../../../etc/passwd"` (the canonical join `/etc/passwd` re-enters the root),
so the claim's "rejects against any root" is false as stated. -/
theorem path_guard_etc_counterexample :
    _validate_safe_path (pathParts "/etc") "../../../etc/passwd" =
        Except.ok ["etc", "passwd"] ∧
    _validate_safe_path (pathParts "/etc") "../../../etc/passwd" ≠
      Except.error PathError.pathEscape := by
  decide

/-- Witness for `path_guard_spec` at the concrete root `/srv/data/plugins`. -/
theorem path_guard_spec_witness :
    _validate_safe_path (pathParts "/srv/data/plugins") "../../../etc/passwd" =
        Except.error PathError.pathEscape ∧
    _validate_safe_path (pathParts "/srv/data/plugins") "a/b.md" =
      Except.ok ["srv", "data", "plugins", "a", "b.md"] := by
  constructor
  · exact (path_guard_spec "/srv/data/plugins" "x").2.1 (by decide)
  · exact ((path_guard_spec "/srv/data/plugins" "a/b.md").2.2
      ⟨["a", "b.md"], by decide⟩).trans (by decide)

/-! ## `Path.name` / `Path.stem` (pathlib semantics) -/

/-- Index of the first occurrence of a character. -/
def firstIdx (c : Char) : List Char → Option Nat
  | [] => none
  | x :: xs => if x = c then some 0 else (firstIdx c xs).map (· + 1)

/-- `PurePosixPath.stem` on a final component: strip the last suffix, where a
suffix needs a dot that is neither the first character nor the last. -/
def stemChars (cs : List Char) : List Char :=
  match firstIdx '.' cs.reverse with
  | none => cs
  | some j => if 1 ≤ j ∧ j + 1 < cs.length then cs.take (cs.length - 1 - j) else cs

/-- `Path(s).name`: the final component, `""` when there is none. -/
def pathName (s : String) : String := ((pathParts s).getLast?).getD ""

/-- `Path(s).stem`. -/
def pathStem (s : String) : String := String.mk (stemChars (pathName s).data)

/-! ## Filesystem model (symlink-free) -/

/-- Membership in a list of canonical paths. -/
def memPath (p : List String) : List (List String) → Bool
  | [] => false
  | q :: qs => if p = q then true else memPath p qs

/-- Association-list lookup with decidable key equality. -/
def lookupKey {κ α : Type} [DecidableEq κ] (k : κ) : List (κ × α) → Option α
  | [] => none
  | (k', v) :: rest => if k = k' then some v else lookupKey k rest

/-- Remove the first entry with the given key, if any. -/
def eraseKey {κ α : Type} [DecidableEq κ] (k : κ) : List (κ × α) → List (κ × α)
  | [] => []
  | (k', v) :: rest => if k = k' then rest else (k', v) :: eraseKey k rest

/-- A snapshot of the filesystem: the set of directories and, for each regular
file, either its text content or `none` for a file whose read raises `OSError`. -/
structure FS where
  dirs : List (List String)
  files : List (List String × Option String)
deriving DecidableEq

/-- `Path.is_dir()`. -/
def FS.isDir (fs : FS) (p : List String) : Bool := memPath p fs.dirs

/-- `Path.is_file()`. -/
def FS.isFile (fs : FS) (p : List String) : Bool := (lookupKey p fs.files).isSome

/-- `Path.exists()`. -/
def FS.pathExists (fs : FS) (p : List String) : Bool := fs.isDir p || fs.isFile p

/-- `open(p).read()`: `some` content on success, `none` when the read raises. -/
def FS.readFile (fs : FS) (p : List String) : Option String :=
  (lookupKey p fs.files).getD none

/-! ## Manifest data model (`marketplace.json`) -/

/-- A JSON object used only as opaque metadata (`owner`, `metadata`); Python
truthiness makes the empty object falsy. -/
def MetaVal := List (String × String)
deriving instance DecidableEq for MetaVal

/-- One entry of a per-category array in a plugin definition: a path string, an
object (with an optional `name` field), or any other JSON value. -/
inductive ElemEntry where
  | pstr (s : String)
  | pobj (name : Option String)
  | pother
deriving DecidableEq

/-- A plugin object of a manifest's `plugins` array. Absent JSON fields are
`none` / `[]`. -/
structure PluginDef where
  name : Option String := none
  description : Option String := none
  source : Option String := none
  metadata : Option MetaVal := none
  agents : List ElemEntry := []
  commands : List ElemEntry := []
  skills : List ElemEntry := []
deriving DecidableEq

/-- A successfully parsed `<dir>/.claude-plugin/marketplace.json`. -/
structure Marketplace where
  dirName : String
  owner : Option MetaVal := none
  metadata : Option MetaVal := none
  plugins : List PluginDef := []
deriving DecidableEq

/-- One entry yielded by `marketplaces_dir.iterdir()`: a non-directory entry, a
directory without a manifest, a directory whose manifest read or JSON parse
fails (`OSError` / `JSONDecodeError`), or a parsed marketplace. -/
inductive ManifestEntry where
  | notDir
  | noManifest
  | badManifest
  | ok (m : Marketplace)
deriving DecidableEq

/-- The service's world: the marketplaces root path, its directory listing
(`none` when `marketplaces_dir` does not exist), and the filesystem used by
element resolution. -/
structure Env where
  marketplacesDir : List String
  root : Option (List ManifestEntry)
  fs : FS
deriving DecidableEq

/-! ## `models.py` -/

/-- `PluginInfo.validate_name`: non-empty, at most 256 characters, only
alphanumerics (modelled with ASCII `Char.isAlphanum`; Python's `str.isalnum`
agrees on ASCII), hyphens and underscores. -/
def validate_name (v : String) : Bool :=
  !(v == "") && decide (v.length ≤ 256) &&
    v.data.all (fun c => c.isAlphanum || c == '-' || c == '_')

/-- A constructed `PluginInfo` model. -/
structure PluginInfo where
  name : String
  description : String
  agents : List String
  commands : List String
  skills : List String
deriving DecidableEq

/-- Pydantic `ValidationError` raised while building a `PluginInfo`. -/
inductive ModelError where
  | invalidName
deriving DecidableEq

/-- `PluginService._extract_element_names`: strings contribute their stem,
objects their `name` field when present, anything else is dropped. -/
def _extract_element_names : List ElemEntry → List String
  | [] => []
  | ElemEntry.pstr s :: rest => pathStem s :: _extract_element_names rest
  | ElemEntry.pobj (some n) :: rest => n :: _extract_element_names rest
  | ElemEntry.pobj none :: rest => _extract_element_names rest
  | ElemEntry.pother :: rest => _extract_element_names rest

/-- Building `PluginInfo(...)` from one plugin object, with the `name`
validator; absent fields default to `""`. -/
def mkPluginInfo (p : PluginDef) : Except ModelError PluginInfo :=
  let nm := p.name.getD ""
  if validate_name nm then
    Except.ok
      { name := nm, description := p.description.getD "",
        agents := _extract_element_names p.agents,
        commands := _extract_element_names p.commands,
        skills := _extract_element_names p.skills }
  else Except.error ModelError.invalidName

/-! ## Marketplace scanning (`get_plugin_list`) -/

/-- The inner plugin loop of `_get_all_marketplace_plugins` over one
marketplace's `plugins` array; a `ValidationError` propagates. -/
def scanPlugins : List PluginDef → Except ModelError (List PluginInfo)
  | [] => Except.ok []
  | p :: rest =>
    match mkPluginInfo p with
    | Except.error e => Except.error e
    | Except.ok info =>
      match scanPlugins rest with
      | Except.ok l => Except.ok (info :: l)
      | Except.error e => Except.error e

/-- The outer loop of `_get_all_marketplace_plugins` over `iterdir()`:
non-directories and directories without a manifest are skipped, manifests whose
read or parse fails are skipped (`OSError` / `JSONDecodeError` are caught), a
`ValidationError` from a plugin is not caught and aborts the scan. -/
def getAllScan : List ManifestEntry → Except ModelError (List PluginInfo)
  | [] => Except.ok []
  | ManifestEntry.ok m :: rest =>
    match scanPlugins m.plugins with
    | Except.error e => Except.error e
    | Except.ok l =>
      match getAllScan rest with
      | Except.ok l' => Except.ok (l ++ l')
      | Except.error e => Except.error e
  | _ :: rest => getAllScan rest

/-- `PluginService._get_all_marketplace_plugins`: a missing root yields `[]`. -/
def _get_all_marketplace_plugins (env : Env) : Except ModelError (List PluginInfo) :=
  match env.root with
  | none => Except.ok []
  | some es => getAllScan es

/-- `PluginService.get_plugin_list` (the `ListPlugins` operation). -/
def get_plugin_list (env : Env) : Except ModelError (List PluginInfo) :=
  _get_all_marketplace_plugins env

/-! ## `describe_plugin` and the plugin index -/

/-- `FileNotFoundError` raised by `describe_plugin`. -/
inductive DescribeError where
  | notFound
deriving DecidableEq

/-- A constructed `PluginDetail` model. -/
structure PluginDetail where
  name : String
  owner : Option MetaVal
  metadata : Option MetaVal
  plugins : List PluginDef
deriving DecidableEq

/-- Python `a or b` on two optional objects: `None` and the empty object are
falsy. -/
def pyOrMeta (a b : Option MetaVal) : Option MetaVal :=
  match a with
  | some m => if m = ([] : MetaVal) then b else some m
  | none => b

/-- First plugin of the list whose `name` field equals `n`. -/
def findNamed (n : String) : List PluginDef → Option PluginDef
  | [] => none
  | p :: rest => if p.name = some n then some p else findNamed n rest

/-- The marketplace loop of `describe_plugin`: the first manifest containing a
plugin named `n` wins; unreadable manifests are skipped. -/
def describeScan (n : String) : List ManifestEntry → Except DescribeError PluginDetail
  | [] => Except.error DescribeError.notFound
  | ManifestEntry.ok m :: rest =>
    match findNamed n m.plugins with
    | some p =>
      Except.ok
        { name := p.name.getD "", owner := m.owner,
          metadata := pyOrMeta p.metadata m.metadata, plugins := [p] }
    | none => describeScan n rest
  | _ :: rest => describeScan n rest

/-- `PluginService.describe_plugin`: a missing root raises
`FileNotFoundError`, as does exhausting the scan without a match. -/
def describe_plugin (env : Env) (n : String) : Except DescribeError PluginDetail :=
  match env.root with
  | none => Except.error DescribeError.notFound
  | some es => describeScan n es

/-- `PluginService.find_plugin_in_marketplace`. -/
def find_plugin_in_marketplace (env : Env) (n : String) : Option PluginDef :=
  match describe_plugin env n with
  | Except.error _ => none
  | Except.ok d => findNamed n d.plugins

/-! ## The LRU cache and `find_plugin_marketplace_dir` -/

/-- `functools.lru_cache(maxsize=128)`. -/
def lruMaxsize : Nat := 128

/-- The LRU cache state, most-recently-used first, keyed like the cached
static method on `(str(marketplaces_dir), plugin_name)`. -/
structure Cache where
  entries : List ((List String × String) × Option (List String))
deriving DecidableEq

/-- A cache hit moves the entry to the most-recently-used position. -/
def Cache.touch (c : Cache) (k : List String × String) : Cache :=
  match lookupKey k c.entries with
  | some v => ⟨(k, v) :: eraseKey k c.entries⟩
  | none => c

/-- A cache miss stores the computed value and evicts beyond the capacity. -/
def Cache.insert (c : Cache) (k : List String × String) (v : Option (List String)) : Cache :=
  ⟨((k, v) :: c.entries).take lruMaxsize⟩

/-- Whether some plugin of the list is named `n`. -/
def anyNamed (n : String) (ps : List PluginDef) : Bool := (findNamed n ps).isSome

/-- The scan body of `_find_plugin_marketplace_dir_cached`: the first manifest
listing a plugin named `n` determines the marketplace directory. -/
def scanEntriesForDir (mdir : List String) (n : String) :
    List ManifestEntry → Option (List String)
  | [] => none
  | ManifestEntry.ok m :: rest =>
    if anyNamed n m.plugins then some (mdir ++ [m.dirName])
    else scanEntriesForDir mdir n rest
  | _ :: rest => scanEntriesForDir mdir n rest

/-- The uncached computation, including the `None` result for a missing root
or an absent plugin (both outcomes are cached by `lru_cache`). -/
def scanForDir (env : Env) (n : String) : Option (List String) :=
  match env.root with
  | none => none
  | some es => scanEntriesForDir env.marketplacesDir n es

/-- `PluginService._find_plugin_marketplace_dir_cached` together with its
`lru_cache` wrapper: consult the cache first, on a miss compute and store. -/
def _find_plugin_marketplace_dir_cached (env : Env) (c : Cache) (n : String) :
    Option (List String) × Cache :=
  match lookupKey (env.marketplacesDir, n) c.entries with
  | some v => (v, c.touch (env.marketplacesDir, n))
  | none =>
    (scanForDir env n, c.insert (env.marketplacesDir, n) (scanForDir env n))

/-- `PluginService.find_plugin_marketplace_dir` (the `locate_directory`
operation). -/
def find_plugin_marketplace_dir (env : Env) (c : Cache) (n : String) :
    Option (List String) × Cache :=
  _find_plugin_marketplace_dir_cached env c n

/-! ## Element resolution -/

/-- `marketplace_dir / plugin_source`: an absolute source replaces the
marketplace directory. -/
def pluginBaseParts (marketplaceDir : List String) (pluginSource : String) : List String :=
  if isAbsStr pluginSource then pathParts pluginSource
  else marketplaceDir ++ pathParts pluginSource

/-- The part of `_resolve_element_path` after the name gate: run the Path
Guard (its `ValueError` is caught and turned into "no match"), then apply the
category-specific existence rules. -/
def resolveGuarded (fs : FS) (marketplaceDir : List String)
    (pluginSource elementType elementPath : String) : Option (List String) :=
  match _validate_safe_path (pluginBaseParts marketplaceDir pluginSource) elementPath with
  | Except.error _ => none
  | Except.ok fullPath =>
    if elementType = "skills" then
      if fs.isDir fullPath then
        let skillFile := fullPath ++ ["SKILL.md"]
        if fs.pathExists skillFile && fs.isFile skillFile then some skillFile else none
      else if fs.pathExists fullPath && fs.isFile fullPath then some fullPath
      else none
    else if fs.pathExists fullPath && fs.isFile fullPath then some fullPath
    else none

/-- `PluginService._resolve_element_path`: the requested name must equal the
entry's stem or the raw entry string, then the guarded, category-checked path
is produced. -/
def _resolve_element_path (fs : FS) (marketplaceDir : List String)
    (pluginSource elementType elementPath elementName : String) : Option (List String) :=
  if elementName = pathStem elementPath ∨ elementName = elementPath then
    resolveGuarded fs marketplaceDir pluginSource elementType elementPath
  else none

/-! ## Element loading -/

/-- `ValueError` raised by the loader: an invalid category, or a path escape
were the guard's exception ever to reach the caller (it never does). -/
inductive LoadError where
  | invalidCategory
  | pathEscape
deriving DecidableEq

/-- A constructed `LoadedElement` model. -/
structure LoadedElement where
  element_type : String
  name : String
  path : List String
  content : String
deriving DecidableEq

/-- The fixed category set of `load_plugin_element`. -/
def validTypes : List String := ["skills", "agents", "commands"]

/-- `plugin_def.get(element_type, [])` for the three valid categories. -/
def PluginDef.elementEntries (p : PluginDef) (ty : String) : List ElemEntry :=
  if ty = "skills" then p.skills
  else if ty = "agents" then p.agents
  else if ty = "commands" then p.commands
  else []

/-- The entry loop of `load_plugin_element`: non-string entries are skipped; on
the first resolved path the file is read, a read failure returning `None`
immediately (the loop does not continue past it). -/
def loadLoop (fs : FS) (marketplaceDir : List String) (src ty nm : String) :
    List ElemEntry → Option LoadedElement
  | [] => none
  | ElemEntry.pstr s :: rest =>
    match _resolve_element_path fs marketplaceDir src ty s nm with
    | some fullPath =>
      match fs.readFile fullPath with
      | some content =>
        some { element_type := ty, name := nm, path := fullPath, content := content }
      | none => none
    | none => loadLoop fs marketplaceDir src ty nm rest
  | _ :: rest => loadLoop fs marketplaceDir src ty nm rest

/-- `PluginService.load_plugin_element` (the `load_one` operation): the
category is validated before anything else; unknown plugin, missing source,
missing entries or an unresolvable element all yield `None`. -/
def load_plugin_element (env : Env) (c : Cache) (pluginName ty nm : String) :
    Except LoadError (Option LoadedElement) × Cache :=
  if ty ∈ validTypes then
    match find_plugin_marketplace_dir env c pluginName with
    | (none, c') => (Except.ok none, c')
    | (some mdir, c') =>
      match find_plugin_in_marketplace env pluginName with
      | none => (Except.ok none, c')
      | some pdef =>
        let src := pdef.source.getD ""
        if src = "" then (Except.ok none, c')
        else
          let entries := pdef.elementEntries ty
          if entries = [] then (Except.ok none, c')
          else (Except.ok (loadLoop env.fs mdir src ty nm entries), c')
  else (Except.error LoadError.invalidCategory, c)

/-- One element reference dict passed to `load_plugin_elements`, with its
possible `type`, `element_type` and `name` keys. -/
structure ElemReq where
  type : Option String := none
  element_type : Option String := none
  name : Option String := none
deriving DecidableEq

/-- Python truthiness of `dict.get`: absent keys and empty strings are falsy. -/
def truthy : Option String → Bool
  | none => false
  | some s => !(s == "")

/-- Python `a or b` on two optional strings. -/
def pyOrStr (a b : Option String) : Option String :=
  match a with
  | some s => if s = "" then b else some s
  | none => b

/-- `element.get("type") or element.get("element_type")`. -/
def ElemReq.effType (r : ElemReq) : Option String := pyOrStr r.type r.element_type

/-- Whether the reference survives the `if not element_type or not
element_name: continue` skip. -/
def reqActive (r : ElemReq) : Bool := truthy r.effType && truthy r.name

/-- The category string passed on to `load_plugin_element`. -/
def reqType (r : ElemReq) : String := r.effType.getD ""

/-- `PluginService.load_plugin_elements` (the `LoadElements` operation):
references are processed in order, skipped when category or name is falsy,
successful loads are collected, `None` results are dropped, and an exception
from `load_plugin_element` propagates. -/
def load_plugin_elements (env : Env) (pluginName : String) :
    Cache → List ElemReq → Except LoadError (List LoadedElement) × Cache
  | c, [] => (Except.ok [], c)
  | c, r :: rest =>
    if reqActive r then
      match load_plugin_element env c pluginName (reqType r) (r.name.getD "") with
      | (Except.error e, c') => (Except.error e, c')
      | (Except.ok none, c') => load_plugin_elements env pluginName c' rest
      | (Except.ok (some le), c') =>
        match load_plugin_elements env pluginName c' rest with
        | (Except.ok ls, c'') => (Except.ok (le :: ls), c'')
        | (Except.error e, c'') => (Except.error e, c'')
    else load_plugin_elements env pluginName c rest

/-- Spec-side view for the batch loader: the per-reference outcomes of
invoking `load_one` once per reference in input order (`none` for a skipped or
failed reference), threading the cache. The batch contract says the output is
exactly these outcomes with the failures dropped. -/
def loadOneResults (env : Env) (pluginName : String) :
    Cache → List ElemReq → List (Option LoadedElement) × Cache
  | c, [] => ([], c)
  | c, r :: rest =>
    if reqActive r then
      match load_plugin_element env c pluginName (reqType r) (r.name.getD "") with
      | (Except.ok o, c') =>
        let q := loadOneResults env pluginName c' rest
        (o :: q.1, q.2)
      | (Except.error _, c') =>
        let q := loadOneResults env pluginName c' rest
        (none :: q.1, q.2)
    else
      let q := loadOneResults env pluginName c rest
      (none :: q.1, q.2)

/-! ## The end-to-end scenario environment -/

/-- A concrete marketplaces root. -/
def demoMarketplacesDir : List String := ["home", "user", ".claude", "plugins", "marketplaces"]

/-- The scenario plugin
`{"name": "demo", "source": "./plugins/demo", "skills": ["./SKILL.md"]}`. -/
def demoPlugin : PluginDef :=
  { name := some "demo", description := some "Demo plugin",
    source := some "./plugins/demo", skills := [ElemEntry.pstr "./SKILL.md"] }

/-- A marketplace whose manifest declares exactly the demo plugin. -/
def demoMarketplace : Marketplace := { dirName := "market", plugins := [demoPlugin] }

/-- The on-disk location of `plugins/demo/SKILL.md` inside that marketplace. -/
def demoSkillPath : List String :=
  demoMarketplacesDir ++ ["market", "plugins", "demo", "SKILL.md"]

/-- The scenario filesystem: the plugin source directory, and `SKILL.md`
containing `"# Demo"`. -/
def demoFS : FS :=
  { dirs := [demoMarketplacesDir ++ ["market", "plugins", "demo"]],
    files := [(demoSkillPath, some "# Demo")] }

/-- The scenario environment. -/
def demoEnv : Env :=
  { marketplacesDir := demoMarketplacesDir,
    root := some [ManifestEntry.ok demoMarketplace], fs := demoFS }

/-- The same service pointed at a marketplaces root that does not exist. -/
def demoEnvNoRoot : Env := { demoEnv with root := none }

/-- A fresh cache. -/
def emptyCache : Cache := ⟨[]⟩

/-- The element reference `{category: "skills", name: "SKILL"}`. -/
def demoReq : ElemReq := { type := some "skills", name := some "SKILL" }

/-- The Loaded Element the scenario produces. -/
def demoLoadedElement : LoadedElement :=
  { element_type := "skills", name := "SKILL", path := demoSkillPath, content := "# Demo" }

/-! ## Shape lemmas for the loader -/

theorem load_plugin_element_shape (env : Env) (c : Cache) (pn ty nm : String) :
    (ty ∈ validTypes → ∃ o c', load_plugin_element env c pn ty nm = (Except.ok o, c')) ∧
    (ty ∉ validTypes →
      load_plugin_element env c pn ty nm = (Except.error LoadError.invalidCategory, c)) := by
  constructor
  · intro hty
    unfold load_plugin_element
    rw [if_pos hty]
    rcases hfd : find_plugin_marketplace_dir env c pn with ⟨mo, cc⟩
    cases mo with
    | none => exact ⟨none, cc, rfl⟩
    | some mdir =>
      cases hfp : find_plugin_in_marketplace env pn with
      | none => exact ⟨none, cc, rfl⟩
      | some pdef =>
        by_cases hsrc : pdef.source.getD "" = ""
        · exact ⟨none, cc, by simp [hsrc]⟩
        · by_cases hent : pdef.elementEntries ty = []
          · exact ⟨none, cc, by simp [hsrc, hent]⟩
          · exact ⟨loadLoop env.fs mdir (pdef.source.getD "") ty nm (pdef.elementEntries ty),
              cc, by simp [hsrc, hent]⟩
  · intro hty
    unfold load_plugin_element
    rw [if_neg hty]

theorem load_many_no_escape (env : Env) (pn : String) :
    ∀ (refs : List ElemReq) (c : Cache),
      (load_plugin_elements env pn c refs).1 ≠ Except.error LoadError.pathEscape := by
  intro refs
  induction refs with
  | nil => intro c; simp [load_plugin_elements]
  | cons r rest ih =>
    intro c
    unfold load_plugin_elements
    by_cases ha : reqActive r = true
    · rw [if_pos ha]
      rcases load_plugin_element_shape env c pn (reqType r) (r.name.getD "") with ⟨hok, hbad⟩
      by_cases hty : reqType r ∈ validTypes
      · rcases hok hty with ⟨o, c', heq⟩
        cases o with
        | none =>
          rw [heq]
          exact ih c'
        | some le =>
          rcases hrec : load_plugin_elements env pn c' rest with ⟨res, c''⟩
          have hres := ih c'
          rw [hrec] at hres
          simp only [heq, hrec]
          cases res with
          | ok ls => simp
          | error e => simpa using hres
      · rw [hbad hty]
        simp
    · rw [if_neg ha]
      exact ih c

/-! ## Claim theorems C2, C3, C4 -/

/-- Claim C2: after the Path Guard succeeds, the category rules apply: for
`skills` a guarded directory redirects to its `SKILL.md`, which must be a
regular file, a guarded regular file is used directly; for `agents` and
`commands` the guarded path itself must be a regular file. In the spec's
end-to-end scenario, loading `{category: skills, name: "SKILL"}` of plugin
`demo` yields exactly one Loaded Element with content `"# Demo"` and a
resolved path ending in `plugins/demo/SKILL.md`. -/
theorem resolver_category_rules (fs : FS) (mdir : List String)
    (src entry nm : String) (full : List String)
    (hmatch : nm = pathStem entry ∨ nm = entry)
    (hguard : _validate_safe_path (pluginBaseParts mdir src) entry = Except.ok full) :
    (fs.isDir full = true → fs.isFile (full ++ ["SKILL.md"]) = true →
      _resolve_element_path fs mdir src "skills" entry nm = some (full ++ ["SKILL.md"])) ∧
    (fs.isDir full = true → fs.isFile (full ++ ["SKILL.md"]) = false →
      _resolve_element_path fs mdir src "skills" entry nm = none) ∧
    (fs.isDir full = false → fs.isFile full = true →
      _resolve_element_path fs mdir src "skills" entry nm = some full) ∧
    (∀ ty, ty = "agents" ∨ ty = "commands" →
      _resolve_element_path fs mdir src ty entry nm =
        (if fs.isFile full then some full else none)) ∧
    (load_plugin_elements demoEnv "demo" emptyCache [demoReq]).1 =
      Except.ok [demoLoadedElement] ∧
    ["plugins", "demo", "SKILL.md"] <:+ demoLoadedElement.path ∧
    demoLoadedElement.content = "# Demo" := by
  have hres : ∀ ty, _resolve_element_path fs mdir src ty entry nm =
      resolveGuarded fs mdir src ty entry := by
    intro ty
    unfold _resolve_element_path
    rw [if_pos hmatch]
  refine ⟨?_, ?_, ?_, ?_, by decide, ⟨demoMarketplacesDir ++ ["market"], by decide⟩, by decide⟩
  · intro hdir hfile
    rw [hres]
    unfold resolveGuarded
    rw [hguard]
    simp [hdir, hfile, FS.pathExists]
  · intro hdir hfile
    rw [hres]
    unfold resolveGuarded
    rw [hguard]
    simp [hdir, hfile]
  · intro hdir hfile
    rw [hres]
    unfold resolveGuarded
    rw [hguard]
    simp [hdir, hfile, FS.pathExists]
  · intro ty hty
    have hne : ty ≠ "skills" := by
      rcases hty with h | h <;> rw [h] <;> decide
    rw [hres]
    unfold resolveGuarded
    rw [hguard]
    cases hfile : fs.isFile full with
    | true => simp [hne, hfile, FS.pathExists]
    | false => simp [hne, hfile]

/-- Witness for `resolver_category_rules`: the scenario entry resolves to the
`SKILL.md` file. -/
theorem resolver_category_rules_witness :
    _resolve_element_path demoFS (demoMarketplacesDir ++ ["market"]) "./plugins/demo"
      "skills" "./SKILL.md" "SKILL" = some demoSkillPath :=
  (resolver_category_rules demoFS (demoMarketplacesDir ++ ["market"]) "./plugins/demo"
      "./SKILL.md" "SKILL" demoSkillPath (Or.inl (by decide)) (by decide)).2.2.1
    (by decide) (by decide)

/-- Claim C3: a string manifest entry matches a requested name exactly when the
name equals the entry's stem or the raw entry string; in particular
`"./SKILL.md"` has stem `"SKILL"` and, in the scenario environment, resolves
both for requested name `"SKILL"` and for `"./SKILL.md"` verbatim. -/
theorem resolver_match_rule (fs : FS) (mdir : List String) (src ty entry nm : String) :
    ((nm = pathStem entry ∨ nm = entry) →
      _resolve_element_path fs mdir src ty entry nm = resolveGuarded fs mdir src ty entry) ∧
    (¬(nm = pathStem entry ∨ nm = entry) →
      _resolve_element_path fs mdir src ty entry nm = none) ∧
    pathStem "./SKILL.md" = "SKILL" ∧
    _resolve_element_path demoFS (demoMarketplacesDir ++ ["market"]) "./plugins/demo"
        "skills" "./SKILL.md" "SKILL" = some demoSkillPath ∧
    _resolve_element_path demoFS (demoMarketplacesDir ++ ["market"]) "./plugins/demo"
        "skills" "./SKILL.md" "./SKILL.md" = some demoSkillPath := by
  refine ⟨?_, ?_, by decide, by decide, by decide⟩
  · intro h
    unfold _resolve_element_path
    rw [if_pos h]
  · intro h
    unfold _resolve_element_path
    rw [if_neg h]

/-- Witness for `resolver_match_rule`: a name matching neither the stem nor
the raw entry is no match. -/
theorem resolver_match_rule_witness :
    _resolve_element_path demoFS ["r"] "." "agents" "a.md" "nope" = none :=
  (resolver_match_rule demoFS ["r"] "." "agents" "a.md" "nope").2.1 (by decide)

/-- Claim C4: a Path Guard failure on a matched entry makes that entry no
match, the entry loop continues with the next entry, and no `PathEscape` error
ever reaches a caller of `load_plugin_element` or `load_plugin_elements`. -/
theorem guard_failure_no_escape (fs : FS) (mdir : List String)
    (src ty entry nm : String) (rest : List ElemEntry)
    (env : Env) (c : Cache) (pn ty' nm' : String) (refs : List ElemReq) :
    (_validate_safe_path (pluginBaseParts mdir src) entry =
        Except.error PathError.pathEscape →
      _resolve_element_path fs mdir src ty entry nm = none) ∧
    (_resolve_element_path fs mdir src ty entry nm = none →
      loadLoop fs mdir src ty nm (ElemEntry.pstr entry :: rest) =
        loadLoop fs mdir src ty nm rest) ∧
    (load_plugin_element env c pn ty' nm').1 ≠ Except.error LoadError.pathEscape ∧
    (load_plugin_elements env pn c refs).1 ≠ Except.error LoadError.pathEscape := by
  refine ⟨?_, ?_, ?_, load_many_no_escape env pn refs c⟩
  · intro hguard
    unfold _resolve_element_path
    by_cases hm : nm = pathStem entry ∨ nm = entry
    · rw [if_pos hm]
      unfold resolveGuarded
      rw [hguard]
    · rw [if_neg hm]
  · intro hnone
    simp only [loadLoop, hnone]
  · rcases load_plugin_element_shape env c pn ty' nm' with ⟨hok, hbad⟩
    by_cases hty : ty' ∈ validTypes
    · rcases hok hty with ⟨o, c', heq⟩
      rw [heq]
      simp
    · rw [hbad hty]
      simp

/-- Witness for `guard_failure_no_escape`: an escaping entry is skipped and the
loop moves on. -/
theorem guard_failure_no_escape_witness :
    _resolve_element_path demoFS ["r"] "sub" "skills" "../../x" "x" = none ∧
    loadLoop demoFS ["r"] "sub" "skills" "x"
        [ElemEntry.pstr "../../x", ElemEntry.pstr "nope"] =
      loadLoop demoFS ["r"] "sub" "skills" "x" [ElemEntry.pstr "nope"] := by
  have h := guard_failure_no_escape demoFS ["r"] "sub" "skills" "../../x" "x"
    [ElemEntry.pstr "nope"] demoEnv emptyCache "demo" "skills" "SKILL" []
  exact ⟨h.1 (by decide), h.2.1 (h.1 (by decide))⟩

/-! ## Claim C5 -/

theorem load_many_error_iff (env : Env) (pn : String) :
    ∀ (refs : List ElemReq) (c : Cache),
      ((load_plugin_elements env pn c refs).1 = Except.error LoadError.invalidCategory ↔
        ∃ r ∈ refs, reqActive r = true ∧ reqType r ∉ validTypes) := by
  intro refs
  induction refs with
  | nil =>
    intro c
    simp [load_plugin_elements]
  | cons r rest ih =>
    intro c
    unfold load_plugin_elements
    by_cases ha : reqActive r = true
    · rw [if_pos ha]
      rcases load_plugin_element_shape env c pn (reqType r) (r.name.getD "") with ⟨hok, hbad⟩
      by_cases hty : reqType r ∈ validTypes
      · rcases hok hty with ⟨o, c', heq⟩
        cases o with
        | none =>
          rw [heq]
          rw [ih c']
          constructor
          · rintro ⟨q, hq, hqa, hqt⟩
            exact ⟨q, List.mem_cons_of_mem r hq, hqa, hqt⟩
          · rintro ⟨q, hq, hqa, hqt⟩
            rcases List.mem_cons.mp hq with hq | hq
            · exact absurd (hq ▸ hty) hqt
            · exact ⟨q, hq, hqa, hqt⟩
        | some le =>
          rcases hrec : load_plugin_elements env pn c' rest with ⟨res, c''⟩
          have hres := ih c'
          rw [hrec] at hres
          simp only [heq, hrec]
          cases res with
          | ok ls =>
            constructor
            · intro h
              exact absurd h (by simp)
            · rintro ⟨q, hq, hqa, hqt⟩
              rcases List.mem_cons.mp hq with hq | hq
              · exact absurd (hq ▸ hty) hqt
              · exact absurd (hres.mpr ⟨q, hq, hqa, hqt⟩) (by simp)
          | error e =>
            constructor
            · intro h
              rcases hres.mp h with ⟨q, hq, hqa, hqt⟩
              exact ⟨q, List.mem_cons_of_mem r hq, hqa, hqt⟩
            · rintro ⟨q, hq, hqa, hqt⟩
              rcases List.mem_cons.mp hq with hq | hq
              · exact absurd (hq ▸ hty) hqt
              · exact hres.mpr ⟨q, hq, hqa, hqt⟩
      · rw [hbad hty]
        constructor
        · intro _
          exact ⟨r, List.mem_cons_self r rest, ha, hty⟩
        · intro _
          rfl
    · rw [if_neg ha]
      rw [ih c]
      constructor
      · rintro ⟨q, hq, hqa, hqt⟩
        exact ⟨q, List.mem_cons_of_mem r hq, hqa, hqt⟩
      · rintro ⟨q, hq, hqa, hqt⟩
        rcases List.mem_cons.mp hq with hq | hq
        · rw [hq] at hqa
          exact absurd hqa (by simp [ha])
        · exact ⟨q, hq, hqa, hqt⟩

/-- Claim C5 counterexample: a reference whose category is the invalid
`"scripts"` but whose name is empty is skipped, so `LoadElements` succeeds
despite a supplied out-of-set category; and when a valid reference precedes the
invalid one, `LoadElements` does fail with `InvalidCategory`, but only after
work that depends on the filesystem (the two environments differ only in the
filesystem yet produce different final states). -/
theorem load_invalid_category_counterexample :
    load_plugin_elements demoEnv "demo" emptyCache
        [{ type := some "scripts", name := some "" }] = (Except.ok [], emptyCache) ∧
    (load_plugin_elements demoEnv "demo" emptyCache
        [demoReq, { type := some "scripts", name := some "x" }]).1 =
      Except.error LoadError.invalidCategory ∧
    load_plugin_elements demoEnv "demo" emptyCache
        [demoReq, { type := some "scripts", name := some "x" }] ≠
      load_plugin_elements demoEnvNoRoot "demo" emptyCache
        [demoReq, { type := some "scripts", name := some "x" }] := by
  decide

/-- Claim C5 (amended): `load_plugin_element` fails with `InvalidCategory`
exactly when the supplied category is outside `{skills, agents, commands}`, and
then the cache is untouched and the result does not depend on the environment
(no filesystem access); any valid category yields a non-error result, failures
being represented as an omitted element; `load_plugin_elements` fails with
`InvalidCategory` exactly when some reference with truthy category and name has
a category outside the set (references before it are processed normally). -/
theorem load_invalid_category_spec (env env' : Env) (c : Cache) (pn ty nm : String)
    (refs : List ElemReq) :
    ((load_plugin_element env c pn ty nm).1 = Except.error LoadError.invalidCategory ↔
      ty ∉ validTypes) ∧
    (ty ∉ validTypes →
      load_plugin_element env c pn ty nm = (Except.error LoadError.invalidCategory, c) ∧
      load_plugin_element env c pn ty nm = load_plugin_element env' c pn ty nm) ∧
    (ty ∈ validTypes → ∃ o c', load_plugin_element env c pn ty nm = (Except.ok o, c')) ∧
    ((load_plugin_elements env pn c refs).1 = Except.error LoadError.invalidCategory ↔
      ∃ r ∈ refs, reqActive r = true ∧ reqType r ∉ validTypes) := by
  rcases load_plugin_element_shape env c pn ty nm with ⟨hok, hbad⟩
  rcases load_plugin_element_shape env' c pn ty nm with ⟨hok', hbad'⟩
  refine ⟨?_, ?_, hok, load_many_error_iff env pn refs c⟩
  · constructor
    · intro h
      by_cases hty : ty ∈ validTypes
      · rcases hok hty with ⟨o, c', heq⟩
        rw [heq] at h
        exact absurd h (by simp)
      · exact hty
    · intro hty
      rw [hbad hty]
  · intro hty
    exact ⟨hbad hty, (hbad hty).trans (hbad' hty).symm⟩

/-- Witness for `load_invalid_category_spec`: the `"scripts"` category fails
immediately with an untouched cache, identically in two different
environments. -/
theorem load_invalid_category_spec_witness :
    load_plugin_element demoEnv emptyCache "demo" "scripts" "x" =
      (Except.error LoadError.invalidCategory, emptyCache) ∧
    load_plugin_element demoEnv emptyCache "demo" "scripts" "x" =
      load_plugin_element demoEnvNoRoot emptyCache "demo" "scripts" "x" :=
  (load_invalid_category_spec demoEnv demoEnvNoRoot emptyCache "demo" "scripts" "x"
    []).2.1 (by decide)

/-! ## Claim C6 -/

/-- Keep the successful outcomes, in order. -/
def collectSomes : List (Option LoadedElement) → List LoadedElement
  | [] => []
  | none :: rest => collectSomes rest
  | some x :: rest => x :: collectSomes rest

theorem loadOneResults_length (env : Env) (pn : String) :
    ∀ (refs : List ElemReq) (c : Cache),
      (loadOneResults env pn c refs).1.length = refs.length := by
  intro refs
  induction refs with
  | nil =>
    intro c
    simp [loadOneResults]
  | cons r rest ih =>
    intro c
    unfold loadOneResults
    by_cases ha : reqActive r = true
    · rw [if_pos ha]
      rcases load_plugin_element_shape env c pn (reqType r) (r.name.getD "") with ⟨hok, hbad⟩
      by_cases hty : reqType r ∈ validTypes
      · rcases hok hty with ⟨o, c', heq⟩
        simp only [heq]
        simp [ih c']
      · rw [hbad hty]
        simp [ih c]
    · rw [if_neg ha]
      simp [ih c]

theorem load_many_refines (env : Env) (pn : String) :
    ∀ (refs : List ElemReq) (c : Cache),
      (∀ r ∈ refs, reqActive r = true → reqType r ∈ validTypes) →
      load_plugin_elements env pn c refs =
        (Except.ok (collectSomes (loadOneResults env pn c refs).1),
          (loadOneResults env pn c refs).2) := by
  intro refs
  induction refs with
  | nil =>
    intro c _
    simp [load_plugin_elements, loadOneResults, collectSomes]
  | cons r rest ih =>
    intro c hvalid
    have hrest : ∀ q ∈ rest, reqActive q = true → reqType q ∈ validTypes :=
      fun q hq => hvalid q (List.mem_cons_of_mem r hq)
    unfold load_plugin_elements loadOneResults
    by_cases ha : reqActive r = true
    · rw [if_pos ha, if_pos ha]
      have hty : reqType r ∈ validTypes := hvalid r (List.mem_cons_self r rest) ha
      rcases (load_plugin_element_shape env c pn (reqType r) (r.name.getD "")).1 hty
        with ⟨o, c', heq⟩
      cases o with
      | none =>
        simp only [heq]
        rw [ih c' hrest]
        simp [collectSomes]
      | some le =>
        simp only [heq]
        rw [ih c' hrest]
        simp [collectSomes]
    · rw [if_neg ha, if_neg ha]
      rw [ih c hrest]
      simp [collectSomes]

/-- Claim C6: the batch loader invokes `load_plugin_element` once per reference
in input order and returns exactly the successful outcomes with the failed ones
dropped (so the output preserves relative order and is at most as long as the
input); on the scenario marketplace, one valid and one nonexistent reference
yield exactly the one valid Loaded Element, with no error for the invalid
one. -/
theorem load_many_spec (env : Env) (pn : String) (c : Cache) (refs : List ElemReq)
    (hvalid : ∀ r ∈ refs, reqActive r = true → reqType r ∈ validTypes) :
    load_plugin_elements env pn c refs =
      (Except.ok (collectSomes (loadOneResults env pn c refs).1),
        (loadOneResults env pn c refs).2) ∧
    (loadOneResults env pn c refs).1.length = refs.length ∧
    (load_plugin_elements demoEnv "demo" emptyCache
        [demoReq, { type := some "skills", name := some "missing" }]).1 =
      Except.ok [demoLoadedElement] :=
  ⟨load_many_refines env pn refs c hvalid, loadOneResults_length env pn refs c, by decide⟩

/-- Witness for `load_many_spec` at the scenario input. -/
theorem load_many_spec_witness :
    load_plugin_elements demoEnv "demo" emptyCache [demoReq] =
      (Except.ok (collectSomes (loadOneResults demoEnv "demo" emptyCache [demoReq]).1),
        (loadOneResults demoEnv "demo" emptyCache [demoReq]).2) :=
  (load_many_spec demoEnv "demo" emptyCache [demoReq] (by decide)).1

/-! ## Claim C7 -/

/-- How many plugins of the list carry the name `n`. -/
def countNamed (n : String) : List PluginDef → Nat
  | [] => 0
  | p :: rest => (if p.name = some n then 1 else 0) + countNamed n rest

/-- How many times a plugin named `n` occurs across the parsed manifests. -/
def entriesNameCount (n : String) : List ManifestEntry → Nat
  | [] => 0
  | ManifestEntry.ok m :: rest => countNamed n m.plugins + entriesNameCount n rest
  | _ :: rest => entriesNameCount n rest

theorem findNamed_name (n : String) :
    ∀ ps p, findNamed n ps = some p → p.name = some n := by
  intro ps
  induction ps with
  | nil =>
    intro p h
    simp [findNamed] at h
  | cons q rest ih =>
    intro p h
    unfold findNamed at h
    by_cases hq : q.name = some n
    · rw [if_pos hq] at h
      cases h
      exact hq
    · rw [if_neg hq] at h
      exact ih p h

theorem findNamed_none_iff (n : String) :
    ∀ ps, findNamed n ps = none ↔ countNamed n ps = 0 := by
  intro ps
  induction ps with
  | nil => simp [findNamed, countNamed]
  | cons q rest ih =>
    unfold findNamed countNamed
    by_cases hq : q.name = some n
    · rw [if_pos hq, if_pos hq]
      simp
    · rw [if_neg hq, if_neg hq]
      simpa using ih

theorem describeScan_error_of_zero (n : String) :
    ∀ es, entriesNameCount n es = 0 →
      describeScan n es = Except.error DescribeError.notFound := by
  intro es
  induction es with
  | nil => intro _; rfl
  | cons q rest ih =>
    intro h
    cases q with
    | ok m =>
      unfold entriesNameCount at h
      unfold describeScan
      rw [(findNamed_none_iff n m.plugins).mpr (by omega)]
      exact ih (by omega)
    | notDir => exact ih h
    | noManifest => exact ih h
    | badManifest => exact ih h

theorem describeScan_ok_of_pos (n : String) :
    ∀ es, 0 < entriesNameCount n es →
      ∃ d, describeScan n es = Except.ok d ∧ d.name = n := by
  intro es
  induction es with
  | nil =>
    intro h
    simp [entriesNameCount] at h
  | cons q rest ih =>
    intro h
    cases q with
    | ok m =>
      unfold describeScan
      cases hf : findNamed n m.plugins with
      | some p =>
        refine ⟨_, rfl, ?_⟩
        have := findNamed_name n m.plugins p hf
        simp [this]
      | none =>
        unfold entriesNameCount at h
        have h0 := (findNamed_none_iff n m.plugins).mp hf
        exact ih (by omega)
    | notDir => exact ih h
    | noManifest => exact ih h
    | badManifest => exact ih h

/-- Claim C7: when a plugin named `n` occurs in exactly one scanned manifest,
`describe_plugin n` returns a detail whose `name` equals `n`; when it occurs
nowhere — including when the marketplaces root itself is absent —
`describe_plugin` fails with the not-found error. -/
theorem describe_plugin_spec (env : Env) (n : String) :
    (env.root = none → describe_plugin env n = Except.error DescribeError.notFound) ∧
    (∀ es, env.root = some es →
      ((entriesNameCount n es = 1 →
          ∃ d, describe_plugin env n = Except.ok d ∧ d.name = n) ∧
        (entriesNameCount n es = 0 →
          describe_plugin env n = Except.error DescribeError.notFound))) := by
  constructor
  · intro h
    unfold describe_plugin
    rw [h]
  · intro es hroot
    constructor
    · intro h1
      rcases describeScan_ok_of_pos n es (by omega) with ⟨d, hd, hdn⟩
      refine ⟨d, ?_, hdn⟩
      unfold describe_plugin
      rw [hroot]
      exact hd
    · intro h0
      unfold describe_plugin
      rw [hroot]
      exact describeScan_error_of_zero n es h0

/-- Witness for `describe_plugin_spec`: the scenario plugin `demo` is found
once, a ghost name is not found, and an absent root is not found. -/
theorem describe_plugin_spec_witness :
    describe_plugin demoEnvNoRoot "demo" = Except.error DescribeError.notFound ∧
    (∃ d, describe_plugin demoEnv "demo" = Except.ok d ∧ d.name = "demo") ∧
    describe_plugin demoEnv "ghost" = Except.error DescribeError.notFound :=
  ⟨(describe_plugin_spec demoEnvNoRoot "demo").1 rfl,
    ((describe_plugin_spec demoEnv "demo").2 _ rfl).1 (by decide),
    ((describe_plugin_spec demoEnv "ghost").2 _ rfl).2 (by decide)⟩

/-! ## Claim C8 -/

/-- Whether an `iterdir` entry is a parsed marketplace. -/
def isOkEntry : ManifestEntry → Bool
  | ManifestEntry.ok _ => true
  | _ => false

theorem getAllScan_skip_only :
    ∀ es, (∀ e ∈ es, isOkEntry e = false) → getAllScan es = Except.ok [] := by
  intro es
  induction es with
  | nil => intro _; rfl
  | cons q rest ih =>
    intro h
    have hrest : ∀ e ∈ rest, isOkEntry e = false :=
      fun e he => h e (List.mem_cons_of_mem q he)
    cases q with
    | ok m => exact absurd (h _ (List.mem_cons_self _ _)) (by simp [isOkEntry])
    | notDir => exact ih hrest
    | noManifest => exact ih hrest
    | badManifest => exact ih hrest

/-- Claim C8: with an absent marketplaces root, or a root none of whose entries
is a parsed marketplace, `get_plugin_list` returns the empty list and raises
nothing. -/
theorem list_plugins_empty_spec (env : Env) :
    (env.root = none → get_plugin_list env = Except.ok []) ∧
    (∀ es, env.root = some es → (∀ e ∈ es, isOkEntry e = false) →
      get_plugin_list env = Except.ok []) := by
  constructor
  · intro h
    unfold get_plugin_list _get_all_marketplace_plugins
    rw [h]
  · intro es hroot hskip
    unfold get_plugin_list _get_all_marketplace_plugins
    rw [hroot]
    exact getAllScan_skip_only es hskip

/-- An environment whose root holds only entries the scan skips. -/
def skipOnlyEnv : Env :=
  { demoEnv with
    root := some [ManifestEntry.notDir, ManifestEntry.noManifest,
      ManifestEntry.badManifest] }

/-- Witness for `list_plugins_empty_spec`: an absent root and a skip-only root
both list as empty. -/
theorem list_plugins_empty_spec_witness :
    get_plugin_list demoEnvNoRoot = Except.ok [] ∧
    get_plugin_list skipOnlyEnv = Except.ok [] :=
  ⟨(list_plugins_empty_spec demoEnvNoRoot).1 rfl,
    (list_plugins_empty_spec skipOnlyEnv).2 _ rfl (by decide)⟩

/-! ## Claim C9 -/

theorem eraseKey_length {κ α : Type} [DecidableEq κ] (k : κ) :
    ∀ (l : List (κ × α)) (v : α), lookupKey k l = some v →
      (eraseKey k l).length + 1 = l.length := by
  intro l
  induction l with
  | nil =>
    intro v h
    simp [lookupKey] at h
  | cons kv rest ih =>
    intro v h
    rcases kv with ⟨k', v'⟩
    unfold lookupKey at h
    unfold eraseKey
    by_cases hk : k = k'
    · rw [if_pos hk]
      simp
    · rw [if_neg hk] at h
      rw [if_neg hk]
      simp only [List.length_cons]
      rw [ih v h]

theorem touch_length (c : Cache) (k : List String × String) :
    (c.touch k).entries.length = c.entries.length := by
  unfold Cache.touch
  cases h : lookupKey k c.entries with
  | none => rfl
  | some v =>
    simp only [List.length_cons]
    exact eraseKey_length k c.entries v h

theorem insert_length_le (c : Cache) (k : List String × String) (v : Option (List String)) :
    (c.insert k v).entries.length ≤ lruMaxsize := by
  unfold Cache.insert
  simp only [List.length_take]
  omega

theorem lookupKey_touch (c : Cache) (k : List String × String) (v : Option (List String))
    (h : lookupKey k c.entries = some v) :
    lookupKey k (c.touch k).entries = some v := by
  unfold Cache.touch
  rw [h]
  simp [lookupKey]

theorem lookupKey_insert (c : Cache) (k : List String × String) (v : Option (List String)) :
    lookupKey k (c.insert k v).entries = some v := by
  unfold Cache.insert
  rw [show lruMaxsize = 127 + 1 from rfl, List.take_succ_cons]
  simp [lookupKey]

/-- Claim C9: `find_plugin_marketplace_dir` consults the bounded LRU cache
(capacity 128) first — a hit returns the cached value and only refreshes its
recency; a miss performs the scan and stores its result, the not-found outcome
(`none`) included; the cache never exceeds its capacity; and two consecutive
calls for the same plugin name against the same environment return the same
result. -/
theorem locate_directory_cache_spec (env : Env) (c : Cache) (n : String)
    (v : Option (List String)) :
    (lookupKey (env.marketplacesDir, n) c.entries = some v →
      find_plugin_marketplace_dir env c n = (v, c.touch (env.marketplacesDir, n))) ∧
    (lookupKey (env.marketplacesDir, n) c.entries = none →
      find_plugin_marketplace_dir env c n =
        (scanForDir env n, c.insert (env.marketplacesDir, n) (scanForDir env n))) ∧
    (c.entries.length ≤ lruMaxsize →
      ((find_plugin_marketplace_dir env c n).2).entries.length ≤ lruMaxsize) ∧
    (find_plugin_marketplace_dir env c n).1 =
      (find_plugin_marketplace_dir env ((find_plugin_marketplace_dir env c n).2) n).1 := by
  refine ⟨?_, ?_, ?_, ?_⟩
  · intro h
    unfold find_plugin_marketplace_dir _find_plugin_marketplace_dir_cached
    rw [h]
  · intro h
    unfold find_plugin_marketplace_dir _find_plugin_marketplace_dir_cached
    rw [h]
  · intro hlen
    unfold find_plugin_marketplace_dir _find_plugin_marketplace_dir_cached
    cases h : lookupKey (env.marketplacesDir, n) c.entries with
    | some v' =>
      simpa [touch_length] using hlen
    | none =>
      simpa using insert_length_le c (env.marketplacesDir, n) (scanForDir env n)
  · unfold find_plugin_marketplace_dir _find_plugin_marketplace_dir_cached
    cases h : lookupKey (env.marketplacesDir, n) c.entries with
    | some v' =>
      rw [lookupKey_touch c (env.marketplacesDir, n) v' h]
    | none =>
      rw [lookupKey_insert c (env.marketplacesDir, n) (scanForDir env n)]

/-- Witness for `locate_directory_cache_spec`: a miss on the fresh cache stores
the scan result, the capacity bound holds, and the scan finds the demo
marketplace directory. -/
theorem locate_directory_cache_spec_witness :
    find_plugin_marketplace_dir demoEnv emptyCache "demo" =
      (scanForDir demoEnv "demo",
        emptyCache.insert (demoEnv.marketplacesDir, "demo") (scanForDir demoEnv "demo")) ∧
    ((find_plugin_marketplace_dir demoEnv emptyCache "demo").2).entries.length ≤
      lruMaxsize ∧
    scanForDir demoEnv "demo" = some (demoMarketplacesDir ++ ["market"]) :=
  ⟨(locate_directory_cache_spec demoEnv emptyCache "demo" none).2.1 rfl,
    (locate_directory_cache_spec demoEnv emptyCache "demo" none).2.2.1 (by decide),
    by decide⟩

/-! ## Claim C10 -/

theorem scanPlugins_error_of_mem (p : PluginDef)
    (hbad : validate_name (p.name.getD "") = false) :
    ∀ ps, p ∈ ps → ∃ e, scanPlugins ps = Except.error e := by
  intro ps
  induction ps with
  | nil =>
    intro h
    simp at h
  | cons q rest ih =>
    intro hmem
    unfold scanPlugins
    rcases List.mem_cons.mp hmem with hq | hq
    · have hmk : mkPluginInfo q = Except.error ModelError.invalidName := by
        unfold mkPluginInfo
        rw [if_neg (by rw [← hq]; simp [hbad])]
      rw [hmk]
      exact ⟨ModelError.invalidName, rfl⟩
    · cases hmk : mkPluginInfo q with
      | error e => exact ⟨e, rfl⟩
      | ok info =>
        rcases ih hq with ⟨e, hrec⟩
        rw [hrec]
        exact ⟨e, rfl⟩

theorem getAllScan_error_of_mem (m : Marketplace) (p : PluginDef)
    (hp : p ∈ m.plugins) (hbad : validate_name (p.name.getD "") = false) :
    ∀ es, ManifestEntry.ok m ∈ es → ∃ e, getAllScan es = Except.error e := by
  intro es
  induction es with
  | nil =>
    intro h
    simp at h
  | cons q rest ih =>
    intro hmem
    rcases List.mem_cons.mp hmem with hq | hq
    · rcases scanPlugins_error_of_mem p hbad m.plugins hp with ⟨e, hsp⟩
      rw [← hq]
      unfold getAllScan
      rw [hsp]
      exact ⟨e, rfl⟩
    · cases q with
      | ok m' =>
        unfold getAllScan
        cases hsp : scanPlugins m'.plugins with
        | error e => exact ⟨e, rfl⟩
        | ok l =>
          rcases ih hq with ⟨e, hrec⟩
          rw [hrec]
          exact ⟨e, rfl⟩
      | notDir => exact ih hq
      | noManifest => exact ih hq
      | badManifest => exact ih hq

/-- Claim C10: whenever any parsed manifest contains a plugin whose name fails
the `PluginInfo` validator (empty, longer than 256 characters, or containing a
character outside alphanumerics, hyphens and underscores), the whole listing
fails with a validation error — the skip-and-continue handling covers only
manifest read and JSON-decode failures, which are skipped without affecting
the rest of the scan. -/
theorem listing_invalid_name_spec (env : Env) (es : List ManifestEntry)
    (m : Marketplace) (p : PluginDef) (hroot : env.root = some es)
    (hm : ManifestEntry.ok m ∈ es) (hp : p ∈ m.plugins)
    (hbad : validate_name (p.name.getD "") = false) :
    (∃ e, get_plugin_list env = Except.error e) ∧
    (∀ rest, getAllScan (ManifestEntry.badManifest :: rest) = getAllScan rest) := by
  constructor
  · unfold get_plugin_list _get_all_marketplace_plugins
    rw [hroot]
    exact getAllScan_error_of_mem m p hp hbad es hm
  · intro rest
    rfl

/-- A plugin whose name fails validation (it contains a space). -/
def badPlugin : PluginDef := { name := some "bad name" }

/-- A second marketplace carrying the invalid plugin after a valid one. -/
def badMarketplace : Marketplace := { dirName := "m2", plugins := [demoPlugin, badPlugin] }

/-- An environment with one unreadable manifest and one manifest containing the
invalid plugin. -/
def badEnv : Env :=
  { demoEnv with
    root := some [ManifestEntry.badManifest, ManifestEntry.ok badMarketplace] }

/-- Witness for `listing_invalid_name_spec`: listing `badEnv` fails. -/
theorem listing_invalid_name_spec_witness :
    ∃ e, get_plugin_list badEnv = Except.error e :=
  (listing_invalid_name_spec badEnv
      [ManifestEntry.badManifest, ManifestEntry.ok badMarketplace]
      badMarketplace badPlugin rfl (by decide) (by decide) (by decide)).1

end CcPluginMcp
